import Mathlib

/-!
Verification development for the SQL lowering core
(`ibis/backends/sql/rewrites.py`): a shallow embedding of the term-graph
data model, the `Select`-merge engine with its complexity guard, the CTE
extractor and the `sqlize` orchestrator, together with theorems settling
the specified properties.
-/

set_option maxHeartbeats 1600000

namespace IbisRewrites

mutual

/--
The term-graph node type.  The constructors `select`, `cte`,
`firstValue`, `lastValue` embed the classes `Select`, `CTE`,
`FirstValue`, `LastValue` defined in `rewrites.py` itself.  The
remaining operation classes live outside the analysed file and are
modelled from the spec: relations `table`, `project`, `filterRel`,
`sortRel`, `limit`, `sample` (fraction plus optional seed), `setOp`
(two-child set operation), `aggregate`, `joinChain` and the explicitly
tagged materialized `view`; values `field` (a column of a specific
relation instance), `lit`, `vop` (any plain value operator), `sortKey`,
`window` (function, order-by, group-by, frame bounds), `first`/`last`
(argument plus optional filter condition), the subquery/unnest operators
and the impure `randomScalar`, `countStar`/`countDistinctStar` and the
scalar `param`.  Structural equality of these terms models the
interning-based instance identity of the source.  `NodeList`,
`NamedList` and `NodeOpt` are the tuple, frozen-dict and optional
fields of nodes.
-/
inductive Node where
  | table (name : String) (cols : List String)
  | field (rel : Node) (name : String)
  | lit (val : Int)
  | vop (name : String) (args : NodeList)
  | sortKey (expr : Node) (asc : Bool)
  | window (func : Node) (orderBy : NodeList) (groupBy : NodeList)
      (start : Option Int) (stop : Option Int)
  | first (arg : Node) (filt : NodeOpt)
  | last (arg : Node) (filt : NodeOpt)
  | firstValue (arg : Node)
  | lastValue (arg : Node)
  | existsSubquery (rel : Node)
  | inSubquery (needle : Node) (rel : Node)
  | unnest (arg : Node)
  | randomScalar
  | countStar (rel : Node)
  | countDistinctStar (rel : Node)
  | param (name : String)
  | project (parent : Node) (values : NamedList)
  | filterRel (parent : Node) (predicates : NodeList)
  | sortRel (parent : Node) (keys : NodeList)
  | select (parent : Node) (selections : NamedList)
      (predicates : NodeList) (sortKeys : NodeList)
  | cte (parent : Node)
  | limit (parent : Node) (n : Nat)
  | sample (parent : Node) (fraction : Int) (seed : Option Int)
  | setOp (kind : String) (left : Node) (right : Node)
  | aggregate (parent : Node) (metrics : NamedList)
  | joinChain (tables : NodeList)
  | view (parent : Node) (name : String)

inductive NodeList where
  | nil
  | cons (head : Node) (tail : NodeList)

inductive NamedList where
  | nil
  | cons (name : String) (value : Node) (tail : NamedList)

inductive NodeOpt where
  | none
  | some (val : Node)

end

deriving instance DecidableEq for Node, NodeList, NamedList, NodeOpt

/-- Convert a `NodeList` field to a standard list. -/
def NodeList.toList : NodeList → List Node
  | .nil => []
  | .cons h t => h :: t.toList

/-- Build a `NodeList` field from a standard list. -/
def NodeList.ofList : List Node → NodeList
  | [] => .nil
  | h :: t => .cons h (NodeList.ofList t)

/-- Convert a `NamedList` field to a standard association list. -/
def NamedList.toList : NamedList → List (String × Node)
  | .nil => []
  | .cons k v t => (k, v) :: t.toList

/-- Build a `NamedList` field from a standard association list. -/
def NamedList.ofList : List (String × Node) → NamedList
  | [] => .nil
  | (k, v) :: t => .cons k v (NamedList.ofList t)

/-- Convert a `NodeOpt` field to a standard option. -/
def NodeOpt.toOption : NodeOpt → Option Node
  | .none => Option.none
  | .some v => Option.some v

theorem nlToList_ofList (l : List Node) :
    (NodeList.ofList l).toList = l := by
  induction l with
  | nil => rfl
  | cons h t ih => simp [NodeList.ofList, NodeList.toList, ih]

theorem nlOfList_toList : (l : NodeList) →
    NodeList.ofList l.toList = l
  | .nil => rfl
  | .cons h t => by
      simp [NodeList.ofList, NodeList.toList, nlOfList_toList t]

theorem pairsToList_ofList (l : List (String × Node)) :
    (NamedList.ofList l).toList = l := by
  induction l with
  | nil => rfl
  | cons h t ih => simp [NamedList.ofList, NamedList.toList, ih]

theorem pairsOfList_toList : (l : NamedList) →
    NamedList.ofList l.toList = l
  | .nil => rfl
  | .cons k v t => by
      simp [NamedList.ofList, NamedList.toList, pairsOfList_toList t]

/-- All node-valued children of a node, in field order (the traversal
order of the generic graph utilities). -/
def childrenAll : Node → List Node
  | .table _ _ => []
  | .field r _ => [r]
  | .lit _ => []
  | .vop _ args => args.toList
  | .sortKey e _ => [e]
  | .window f ob gb _ _ => f :: (ob.toList ++ gb.toList)
  | .first a f? => a :: f?.toOption.toList
  | .last a f? => a :: f?.toOption.toList
  | .firstValue a => [a]
  | .lastValue a => [a]
  | .existsSubquery r => [r]
  | .inSubquery n r => [n, r]
  | .unnest a => [a]
  | .randomScalar => []
  | .countStar r => [r]
  | .countDistinctStar r => [r]
  | .param _ => []
  | .project p vs => p :: (vs.toList.map Prod.snd)
  | .filterRel p ps => p :: ps.toList
  | .sortRel p ks => p :: ks.toList
  | .select p sels preds keys =>
      p :: (sels.toList.map Prod.snd ++ (preds.toList ++ keys.toList))
  | .cte p => [p]
  | .limit p _ => [p]
  | .sample p _ _ => [p]
  | .setOp _ l r => [l, r]
  | .aggregate p ms => p :: (ms.toList.map Prod.snd)
  | .joinChain ts => ts.toList
  | .view p _ => [p]

/-- Is this node a `Field`?  (`ops.Field`.) -/
def isField : Node → Bool
  | .field _ _ => true
  | _ => false

mutual

/--
The complexity score of `rewrites.py`: a `Field` scores `1` without
recursing into the relation it references; every other node scores `1`
plus the sum of the scores of its node-valued arguments.  The source
computes this with a memoized graph map (`node.map_nodes(accum)`); the
memoization only affects running time, the resulting score is this
recursive function of the term.
-/
def complexity : Node → Nat
  | .table _ _ => 1
  | .field _ _ => 1
  | .lit _ => 1
  | .vop _ args => 1 + complexityL args
  | .sortKey e _ => 1 + complexity e
  | .window f ob gb _ _ => 1 + (complexity f + (complexityL ob + complexityL gb))
  | .first a f? => 1 + (complexity a + complexityO f?)
  | .last a f? => 1 + (complexity a + complexityO f?)
  | .firstValue a => 1 + complexity a
  | .lastValue a => 1 + complexity a
  | .existsSubquery r => 1 + complexity r
  | .inSubquery n r => 1 + (complexity n + complexity r)
  | .unnest a => 1 + complexity a
  | .randomScalar => 1
  | .countStar r => 1 + complexity r
  | .countDistinctStar r => 1 + complexity r
  | .param _ => 1
  | .project p vs => 1 + (complexity p + complexityP vs)
  | .filterRel p ps => 1 + (complexity p + complexityL ps)
  | .sortRel p ks => 1 + (complexity p + complexityL ks)
  | .select p sels preds keys =>
      1 + (complexity p + (complexityP sels + (complexityL preds + complexityL keys)))
  | .cte p => 1 + complexity p
  | .limit p _ => 1 + complexity p
  | .sample p _ _ => 1 + complexity p
  | .setOp _ l r => 1 + (complexity l + complexity r)
  | .aggregate p ms => 1 + (complexity p + complexityP ms)
  | .joinChain ts => 1 + complexityL ts
  | .view p _ => 1 + complexity p
termination_by structural x => x

/-- Sum of `complexity` over a `NodeList`. -/
def complexityL : NodeList → Nat
  | .nil => 0
  | .cons h t => complexity h + complexityL t
termination_by structural x => x

/-- Sum of `complexity` over the values of a `NamedList`. -/
def complexityP : NamedList → Nat
  | .nil => 0
  | .cons _ v t => complexity v + complexityP t
termination_by structural x => x

/-- Sum of `complexity` over a `NodeOpt`. -/
def complexityO : NodeOpt → Nat
  | .none => 0
  | .some v => complexity v
termination_by structural x => x

end

mutual

/--
Does this value expression contain (itself included) a blocking
operation — a window function, EXISTS-subquery, IN-subquery, unnest or
impure value — searching only value subtrees, never descending into a
nested relation?  This models `find_below(blocking, filter=ops.Value)`
of `merge_select_select` applied to the value roots of a `Select`.
-/
def blockedVal : Node → Bool
  | .field _ _ => false
  | .lit _ => false
  | .param _ => false
  | .vop _ args => blockedValL args
  | .sortKey e _ => blockedVal e
  | .window _ _ _ _ _ => true
  | .existsSubquery _ => true
  | .inSubquery _ _ => true
  | .unnest _ => true
  | .randomScalar => true
  | .first a f? => blockedVal a || blockedValO f?
  | .last a f? => blockedVal a || blockedValO f?
  | .firstValue a => blockedVal a
  | .lastValue a => blockedVal a
  | .countStar _ => false
  | .countDistinctStar _ => false
  | _ => false
termination_by structural x => x

/-- `blockedVal` over a `NodeList`. -/
def blockedValL : NodeList → Bool
  | .nil => false
  | .cons h t => blockedVal h || blockedValL t
termination_by structural x => x

/-- `blockedVal` over a `NodeOpt`. -/
def blockedValO : NodeOpt → Bool
  | .none => false
  | .some v => blockedVal v
termination_by structural x => x

/-- `blockedVal` over the values of a `NamedList`. -/
def blockedValP : NamedList → Bool
  | .nil => false
  | .cons _ v t => blockedVal v || blockedValP t
termination_by structural x => x

end

/-- The blocking safety check of `merge_select_select` applied to one
`Select`'s own value subtrees (selections, predicates, sort keys). -/
def selectValsBlocked (sels : NamedList) (preds keys : NodeList) : Bool :=
  blockedValP sels || (blockedValL preds || blockedValL keys)

mutual

/--
The substitution of `merge_select_select`: replace every
`Field(inner, k)` by the value bound to `k` in the inner selections
`sels`, traversing only value subtrees (`replace(subs, filter=ops.Value)`),
never descending into nested relations.
-/
def substVal (inner : Node) (sels : List (String × Node)) : Node → Node
  | .field r k =>
      if r = inner then
        match sels.lookup k with
        | Option.some v => v
        | Option.none => .field r k
      else .field r k
  | .vop s args => .vop s (substValL inner sels args)
  | .sortKey e a => .sortKey (substVal inner sels e) a
  | .window f ob gb s e =>
      .window (substVal inner sels f) (substValL inner sels ob)
        (substValL inner sels gb) s e
  | .first a f? => .first (substVal inner sels a) (substValO inner sels f?)
  | .last a f? => .last (substVal inner sels a) (substValO inner sels f?)
  | .firstValue a => .firstValue (substVal inner sels a)
  | .lastValue a => .lastValue (substVal inner sels a)
  | .inSubquery n r => .inSubquery (substVal inner sels n) r
  | .unnest a => .unnest (substVal inner sels a)
  | n => n
termination_by structural x => x

/-- `substVal` over a `NodeList`. -/
def substValL (inner : Node) (sels : List (String × Node)) : NodeList → NodeList
  | .nil => .nil
  | .cons h t => .cons (substVal inner sels h) (substValL inner sels t)
termination_by structural x => x

/-- `substVal` over a `NodeOpt`. -/
def substValO (inner : Node) (sels : List (String × Node)) : NodeOpt → NodeOpt
  | .none => .none
  | .some v => .some (substVal inner sels v)
termination_by structural x => x

end

/-- `toolz.unique` with its set of already-seen elements: keep the
elements not seen before, first occurrences first. -/
def uniqueFirstAux (seen : List Node) : List Node → List Node
  | [] => []
  | x :: xs =>
      if x ∈ seen then uniqueFirstAux seen xs
      else x :: uniqueFirstAux (x :: seen) xs

/-- `toolz.unique`: de-duplicate by structural equality keeping the
first occurrence. -/
def uniqueFirst (l : List Node) : List Node :=
  uniqueFirstAux [] l

/-- The `expr` attribute of a sort key. -/
def sortExprOf : Node → Node
  | .sortKey e _ => e
  | n => n

/--
The candidate node built by `merge_select_select` for the pair
`Select(Select(gp, isels, ipreds, isorts), osels, opreds, osorts)`: the
inner parent becomes the parent, the outer selections, predicates and
sort keys are substituted through the inner selections, the predicates
are the inner ones followed by the substituted outer ones de-duplicated
keeping first occurrences, and the sort keys are the substituted outer
keys followed by the inner keys whose expression does not already
appear among them.
-/
def mergeCandidate (gp : Node) (isels : NamedList) (ipreds isorts : NodeList)
    (osels : NamedList) (opreds osorts : NodeList) : Node :=
  let inner : Node := .select gp isels ipreds isorts
  let sl := isels.toList
  let selections := osels.toList.map (fun kv => (kv.1, substVal inner sl kv.2))
  let predicates := opreds.toList.map (substVal inner sl)
  let uniquePredicates := uniqueFirst (ipreds.toList ++ predicates)
  let sortKeys := osorts.toList.map (substVal inner sl)
  let sortKeyExprs := sortKeys.map sortExprOf
  let parentSortKeys :=
    isorts.toList.filter (fun k => sortExprOf k ∉ sortKeyExprs)
  let uniqueSortKeys := sortKeys ++ parentSortKeys
  .select gp (NamedList.ofList selections)
    (NodeList.ofList uniquePredicates) (NodeList.ofList uniqueSortKeys)

/--
`merge_select_select`: collapse `Select(Select(...))` into one `Select`.
Vetoed when either the outer or the inner value subtrees contain a
blocking operation; otherwise the inner selections are inlined into the
outer selections, predicates and sort keys, and the merged node is kept
only when its complexity does not exceed the original's.
-/
def merge_select_select : Node → Node
  | .select (.select gp isels ipreds isorts) osels opreds osorts =>
      let inner : Node := .select gp isels ipreds isorts
      let orig : Node := .select inner osels opreds osorts
      if selectValsBlocked osels opreds osorts then orig
      else if selectValsBlocked isels ipreds isorts then orig
      else
        let result : Node := mergeCandidate gp isels ipreds isorts osels opreds osorts
        if complexity result ≤ complexity orig then result else orig
  | n => n

/-- Errors raised by the rewrite rules (`UnsupportedOperationError`,
an unresolved scalar parameter, and the non-`Relation` root assert). -/
inductive RErr where
  | unsupported
  | missingParam
  | notRelation
deriving DecidableEq

mutual

/--
Modelled from the spec: the generic bottom-up graph rewriter of the
term-matching substrate (`node.replace(rule)` with no filter) — rebuild
every node from its already-rewritten children, then apply the rule
once to the reconstruction; rule results are not re-traversed.
-/
def rewriteBU (f : Node → Node) : Node → Node
  | .table s cs => f (.table s cs)
  | .field r k => f (.field (rewriteBU f r) k)
  | .lit v => f (.lit v)
  | .vop s args => f (.vop s (rewriteBUL f args))
  | .sortKey e a => f (.sortKey (rewriteBU f e) a)
  | .window fn ob gb s e =>
      f (.window (rewriteBU f fn) (rewriteBUL f ob) (rewriteBUL f gb) s e)
  | .first a f? => f (.first (rewriteBU f a) (rewriteBUO f f?))
  | .last a f? => f (.last (rewriteBU f a) (rewriteBUO f f?))
  | .firstValue a => f (.firstValue (rewriteBU f a))
  | .lastValue a => f (.lastValue (rewriteBU f a))
  | .existsSubquery r => f (.existsSubquery (rewriteBU f r))
  | .inSubquery n r => f (.inSubquery (rewriteBU f n) (rewriteBU f r))
  | .unnest a => f (.unnest (rewriteBU f a))
  | .randomScalar => f .randomScalar
  | .countStar r => f (.countStar (rewriteBU f r))
  | .countDistinctStar r => f (.countDistinctStar (rewriteBU f r))
  | .param s => f (.param s)
  | .project p vs => f (.project (rewriteBU f p) (rewriteBUP f vs))
  | .filterRel p ps => f (.filterRel (rewriteBU f p) (rewriteBUL f ps))
  | .sortRel p ks => f (.sortRel (rewriteBU f p) (rewriteBUL f ks))
  | .select p sels preds keys =>
      f (.select (rewriteBU f p) (rewriteBUP f sels)
          (rewriteBUL f preds) (rewriteBUL f keys))
  | .cte p => f (.cte (rewriteBU f p))
  | .limit p n => f (.limit (rewriteBU f p) n)
  | .sample p fr sd => f (.sample (rewriteBU f p) fr sd)
  | .setOp k l r => f (.setOp k (rewriteBU f l) (rewriteBU f r))
  | .aggregate p ms => f (.aggregate (rewriteBU f p) (rewriteBUP f ms))
  | .joinChain ts => f (.joinChain (rewriteBUL f ts))
  | .view p s => f (.view (rewriteBU f p) s)
termination_by structural x => x

/-- `rewriteBU` over a `NodeList`. -/
def rewriteBUL (f : Node → Node) : NodeList → NodeList
  | .nil => .nil
  | .cons h t => .cons (rewriteBU f h) (rewriteBUL f t)
termination_by structural x => x

/-- `rewriteBU` over a `NamedList`. -/
def rewriteBUP (f : Node → Node) : NamedList → NamedList
  | .nil => .nil
  | .cons k v t => .cons k (rewriteBU f v) (rewriteBUP f t)
termination_by structural x => x

/-- `rewriteBU` over a `NodeOpt`. -/
def rewriteBUO (f : Node → Node) : NodeOpt → NodeOpt
  | .none => .none
  | .some v => .some (rewriteBU f v)
termination_by structural x => x

end

mutual

/--
Modelled from the spec: the bottom-up rewriter for rules that can raise
(`UnsupportedOperationError` propagates immediately out of the lowering
call).
-/
def rewriteBUE (f : Node → Except RErr Node) : Node → Except RErr Node
  | .table s cs => f (.table s cs)
  | .field r k => do f (.field (← rewriteBUE f r) k)
  | .lit v => f (.lit v)
  | .vop s args => do f (.vop s (← rewriteBUEL f args))
  | .sortKey e a => do f (.sortKey (← rewriteBUE f e) a)
  | .window fn ob gb s e => do
      f (.window (← rewriteBUE f fn) (← rewriteBUEL f ob) (← rewriteBUEL f gb) s e)
  | .first a f? => do f (.first (← rewriteBUE f a) (← rewriteBUEO f f?))
  | .last a f? => do f (.last (← rewriteBUE f a) (← rewriteBUEO f f?))
  | .firstValue a => do f (.firstValue (← rewriteBUE f a))
  | .lastValue a => do f (.lastValue (← rewriteBUE f a))
  | .existsSubquery r => do f (.existsSubquery (← rewriteBUE f r))
  | .inSubquery n r => do f (.inSubquery (← rewriteBUE f n) (← rewriteBUE f r))
  | .unnest a => do f (.unnest (← rewriteBUE f a))
  | .randomScalar => f .randomScalar
  | .countStar r => do f (.countStar (← rewriteBUE f r))
  | .countDistinctStar r => do f (.countDistinctStar (← rewriteBUE f r))
  | .param s => f (.param s)
  | .project p vs => do f (.project (← rewriteBUE f p) (← rewriteBUEP f vs))
  | .filterRel p ps => do f (.filterRel (← rewriteBUE f p) (← rewriteBUEL f ps))
  | .sortRel p ks => do f (.sortRel (← rewriteBUE f p) (← rewriteBUEL f ks))
  | .select p sels preds keys => do
      f (.select (← rewriteBUE f p) (← rewriteBUEP f sels)
          (← rewriteBUEL f preds) (← rewriteBUEL f keys))
  | .cte p => do f (.cte (← rewriteBUE f p))
  | .limit p n => do f (.limit (← rewriteBUE f p) n)
  | .sample p fr sd => do f (.sample (← rewriteBUE f p) fr sd)
  | .setOp k l r => do f (.setOp k (← rewriteBUE f l) (← rewriteBUE f r))
  | .aggregate p ms => do f (.aggregate (← rewriteBUE f p) (← rewriteBUEP f ms))
  | .joinChain ts => do f (.joinChain (← rewriteBUEL f ts))
  | .view p s => do f (.view (← rewriteBUE f p) s)
termination_by structural x => x

/-- `rewriteBUE` over a `NodeList`. -/
def rewriteBUEL (f : Node → Except RErr Node) : NodeList → Except RErr NodeList
  | .nil => .ok .nil
  | .cons h t => do pure (.cons (← rewriteBUE f h) (← rewriteBUEL f t))
termination_by structural x => x

/-- `rewriteBUE` over a `NamedList`. -/
def rewriteBUEP (f : Node → Except RErr Node) : NamedList → Except RErr NamedList
  | .nil => .ok .nil
  | .cons k v t => do pure (.cons k (← rewriteBUE f v) (← rewriteBUEP f t))
termination_by structural x => x

/-- `rewriteBUE` over a `NodeOpt`. -/
def rewriteBUEO (f : Node → Except RErr Node) : NodeOpt → Except RErr NodeOpt
  | .none => .ok .none
  | .some v => do pure (.some (← rewriteBUE f v))
termination_by structural x => x

end

/-- Wrap the reconstructed node in a `CTE` when the original node is a
qualifying CTE candidate (`wrap` inside `sqlize`). -/
def wrapIf (ctes : List Node) (orig new : Node) : Node :=
  if orig ∈ ctes then .cte new else new

mutual

/--
The CTE wrapping pass of `sqlize`: rebuild every node from its
already-rewritten children and wrap the reconstruction in a `CTE` node
whenever the original node belongs to the extracted candidate set.
-/
def wrapAll (ctes : List Node) : Node → Node
  | .table s cs => wrapIf ctes (.table s cs) (.table s cs)
  | .field r k => wrapIf ctes (.field r k) (.field (wrapAll ctes r) k)
  | .lit v => wrapIf ctes (.lit v) (.lit v)
  | .vop s args => wrapIf ctes (.vop s args) (.vop s (wrapAllL ctes args))
  | .sortKey e a => wrapIf ctes (.sortKey e a) (.sortKey (wrapAll ctes e) a)
  | .window fn ob gb s e =>
      wrapIf ctes (.window fn ob gb s e)
        (.window (wrapAll ctes fn) (wrapAllL ctes ob) (wrapAllL ctes gb) s e)
  | .first a f? =>
      wrapIf ctes (.first a f?) (.first (wrapAll ctes a) (wrapAllO ctes f?))
  | .last a f? =>
      wrapIf ctes (.last a f?) (.last (wrapAll ctes a) (wrapAllO ctes f?))
  | .firstValue a => wrapIf ctes (.firstValue a) (.firstValue (wrapAll ctes a))
  | .lastValue a => wrapIf ctes (.lastValue a) (.lastValue (wrapAll ctes a))
  | .existsSubquery r =>
      wrapIf ctes (.existsSubquery r) (.existsSubquery (wrapAll ctes r))
  | .inSubquery n r =>
      wrapIf ctes (.inSubquery n r) (.inSubquery (wrapAll ctes n) (wrapAll ctes r))
  | .unnest a => wrapIf ctes (.unnest a) (.unnest (wrapAll ctes a))
  | .randomScalar => wrapIf ctes .randomScalar .randomScalar
  | .countStar r => wrapIf ctes (.countStar r) (.countStar (wrapAll ctes r))
  | .countDistinctStar r =>
      wrapIf ctes (.countDistinctStar r) (.countDistinctStar (wrapAll ctes r))
  | .param s => wrapIf ctes (.param s) (.param s)
  | .project p vs =>
      wrapIf ctes (.project p vs) (.project (wrapAll ctes p) (wrapAllP ctes vs))
  | .filterRel p ps =>
      wrapIf ctes (.filterRel p ps) (.filterRel (wrapAll ctes p) (wrapAllL ctes ps))
  | .sortRel p ks =>
      wrapIf ctes (.sortRel p ks) (.sortRel (wrapAll ctes p) (wrapAllL ctes ks))
  | .select p sels preds keys =>
      wrapIf ctes (.select p sels preds keys)
        (.select (wrapAll ctes p) (wrapAllP ctes sels)
          (wrapAllL ctes preds) (wrapAllL ctes keys))
  | .cte p => wrapIf ctes (.cte p) (.cte (wrapAll ctes p))
  | .limit p n => wrapIf ctes (.limit p n) (.limit (wrapAll ctes p) n)
  | .sample p fr sd => wrapIf ctes (.sample p fr sd) (.sample (wrapAll ctes p) fr sd)
  | .setOp k l r =>
      wrapIf ctes (.setOp k l r) (.setOp k (wrapAll ctes l) (wrapAll ctes r))
  | .aggregate p ms =>
      wrapIf ctes (.aggregate p ms) (.aggregate (wrapAll ctes p) (wrapAllP ctes ms))
  | .joinChain ts => wrapIf ctes (.joinChain ts) (.joinChain (wrapAllL ctes ts))
  | .view p s => wrapIf ctes (.view p s) (.view (wrapAll ctes p) s)
termination_by structural x => x

/-- `wrapAll` over a `NodeList`. -/
def wrapAllL (ctes : List Node) : NodeList → NodeList
  | .nil => .nil
  | .cons h t => .cons (wrapAll ctes h) (wrapAllL ctes t)
termination_by structural x => x

/-- `wrapAll` over a `NamedList`. -/
def wrapAllP (ctes : List Node) : NamedList → NamedList
  | .nil => .nil
  | .cons k v t => .cons k (wrapAll ctes v) (wrapAllP ctes t)
termination_by structural x => x

/-- `wrapAll` over a `NodeOpt`. -/
def wrapAllO (ctes : List Node) : NodeOpt → NodeOpt
  | .none => .none
  | .some v => .some (wrapAll ctes v)
termination_by structural x => x

end

/--
`first_to_firstvalue`: convert a windowed `First`/`Last` into
`FirstValue`/`LastValue`, raising `UnsupportedOperationError` when the
function carries a non-null `where` filter; all other fields of the
window node are kept (`_.copy(func=...)`).
-/
def first_to_firstvalue : Node → Except RErr Node
  | .window (.first _ (.some _)) _ _ _ _ => .error .unsupported
  | .window (.first a .none) ob gb s e => .ok (.window (.firstValue a) ob gb s e)
  | .window (.last _ (.some _)) _ _ _ _ => .error .unsupported
  | .window (.last a .none) ob gb s e => .ok (.window (.lastValue a) ob gb s e)
  | n => .ok n

/--
`rewrite_sample_as_filter`: rewrite `Sample` into
`Filter(parent, RandomScalar() <= fraction)`, raising
`UnsupportedOperationError` when a seed is specified.
-/
def rewrite_sample_as_filter : Node → Except RErr Node
  | .sample _ _ (Option.some _) => .error .unsupported
  | .sample p fr Option.none =>
      .ok (.filterRel p
        (.cons (.vop "lessEqual" (.cons .randomScalar (.cons (.lit fr) .nil))) .nil))
  | n => .ok n

/-- Modelled from the spec: the schema column names of a relation
(`Select`/`CTE` forward or derive them; modelled likewise for the
external relation classes). -/
def columnsOf : Node → List String
  | .table _ cols => cols
  | .project _ vs => vs.toList.map Prod.fst
  | .select _ sels _ _ => sels.toList.map Prod.fst
  | .aggregate _ ms => ms.toList.map Prod.fst
  | .filterRel p _ => columnsOf p
  | .sortRel p _ => columnsOf p
  | .limit p _ => columnsOf p
  | .sample p _ _ => columnsOf p
  | .cte p => columnsOf p
  | .view p _ => columnsOf p
  | .setOp _ l _ => columnsOf l
  | _ => []

/-- Modelled from the spec: the derived `values` of a pass-through
relation — one `Field(parent, k)` per schema column `k`. -/
def derivedValues (p : Node) : NamedList :=
  NamedList.ofList ((columnsOf p).map (fun k => (k, .field p k)))

/--
One step of the core lowering pass of `sqlize`:
`replace_parameter | project_to_select | filter_to_select |
sort_to_select | first_to_firstvalue`, first match wins, identity on
non-matching nodes.
-/
def lowerStep (params : List (String × Int)) : Node → Except RErr Node
  | .param s =>
      match params.lookup s with
      | Option.some v => .ok (.lit v)
      | Option.none => .error .missingParam
  | .project p vs => .ok (.select p vs .nil .nil)
  | .filterRel p ps => .ok (.select p (derivedValues p) ps .nil)
  | .sortRel p ks => .ok (.select p (derivedValues p) .nil ks)
  | n => first_to_firstvalue n

/-- The kinds excluded from the CTE dependency graph
(`Field`, `CountStar`, `CountDistinctStar`). -/
def dontCount : Node → Bool
  | .field _ _ => true
  | .countStar _ => true
  | .countDistinctStar _ => true
  | _ => false

/-- The children followed by the CTE dependency graph: all children
except the excluded kinds. -/
def filteredChildren (n : Node) : List Node :=
  (childrenAll n).filter (fun c => !dontCount c)

mutual

/-- Total number of constructor nodes of a term (an upper bound on the
work of the breadth-first traversals, used as fuel). -/
def nodeCount : Node → Nat
  | .table _ _ => 1
  | .field r _ => 1 + nodeCount r
  | .lit _ => 1
  | .vop _ args => 1 + nodeCountL args
  | .sortKey e _ => 1 + nodeCount e
  | .window f ob gb _ _ => 1 + (nodeCount f + (nodeCountL ob + nodeCountL gb))
  | .first a f? => 1 + (nodeCount a + nodeCountO f?)
  | .last a f? => 1 + (nodeCount a + nodeCountO f?)
  | .firstValue a => 1 + nodeCount a
  | .lastValue a => 1 + nodeCount a
  | .existsSubquery r => 1 + nodeCount r
  | .inSubquery n r => 1 + (nodeCount n + nodeCount r)
  | .unnest a => 1 + nodeCount a
  | .randomScalar => 1
  | .countStar r => 1 + nodeCount r
  | .countDistinctStar r => 1 + nodeCount r
  | .param _ => 1
  | .project p vs => 1 + (nodeCount p + nodeCountP vs)
  | .filterRel p ps => 1 + (nodeCount p + nodeCountL ps)
  | .sortRel p ks => 1 + (nodeCount p + nodeCountL ks)
  | .select p sels preds keys =>
      1 + (nodeCount p + (nodeCountP sels + (nodeCountL preds + nodeCountL keys)))
  | .cte p => 1 + nodeCount p
  | .limit p _ => 1 + nodeCount p
  | .sample p _ _ => 1 + nodeCount p
  | .setOp _ l r => 1 + (nodeCount l + nodeCount r)
  | .aggregate p ms => 1 + (nodeCount p + nodeCountP ms)
  | .joinChain ts => 1 + nodeCountL ts
  | .view p _ => 1 + nodeCount p
termination_by structural x => x

/-- `nodeCount` over a `NodeList`. -/
def nodeCountL : NodeList → Nat
  | .nil => 0
  | .cons h t => nodeCount h + nodeCountL t
termination_by structural x => x

/-- `nodeCount` over a `NamedList`. -/
def nodeCountP : NamedList → Nat
  | .nil => 0
  | .cons _ v t => nodeCount v + nodeCountP t
termination_by structural x => x

/-- `nodeCount` over a `NodeOpt`. -/
def nodeCountO : NodeOpt → Nat
  | .none => 0
  | .some v => nodeCount v
termination_by structural x => x

end

/--
Modelled from the spec: the breadth-first traversal of the dependency
graph utility (`Graph.from_bfs`) — dequeue, record first visits in
discovery order, enqueue the node's (possibly filtered) children at the
back of the queue.
-/
def bfsAux (ch : Node → List Node) : Nat → List Node → List Node → List Node
  | 0, _, acc => acc.reverse
  | _ + 1, [], acc => acc.reverse
  | fuel + 1, q :: qs, acc =>
      if q ∈ acc then bfsAux ch fuel qs acc
      else bfsAux ch fuel (qs ++ ch q) (q :: acc)

/-- The nodes of the CTE dependency graph in breadth-first discovery
order, with `Field`/`CountStar`/`CountDistinctStar` excluded from
membership and traversal. -/
def graphNodes (root : Node) : List Node :=
  bfsAux filteredChildren (nodeCount root + 1) [root] []

/-- The nodes of the unfiltered graph in breadth-first discovery order
(`node.find`). -/
def allNodesBFS (root : Node) : List Node :=
  bfsAux childrenAll (nodeCount root + 1) [root] []

/-- The distinct nodes of the dependency graph that directly reference
`n` (`Graph.invert`). -/
def dependents (root n : Node) : List Node :=
  (graphNodes root).filter (fun m => n ∈ filteredChildren m)

/-- Is this node an explicitly-tagged materialized view? -/
def isView : Node → Bool
  | .view _ _ => true
  | _ => false

/-- The CTE-eligible relation kinds (`Select`, `Aggregate`, `JoinChain`,
`Set`, `Limit`, `Sample`). -/
def isCteKind : Node → Bool
  | .select _ _ _ _ => true
  | .aggregate _ _ => true
  | .joinChain _ => true
  | .setOp _ _ _ => true
  | .limit _ _ => true
  | .sample _ _ _ => true
  | _ => false

/-- Is this node a `CTE` wrapper? -/
def isCteNode : Node → Bool
  | .cte _ => true
  | _ => false

/-- The `parent` of a `CTE` wrapper. -/
def cteParent : Node → Node
  | .cte p => p
  | n => n

/--
`extract_ctes`: the nodes of the dependency graph that are explicitly
tagged views, or are of a CTE-eligible kind and have two or more
distinct referencing nodes.
-/
def extract_ctes (root : Node) : List Node :=
  (graphNodes root).filter
    (fun n => isView n || (2 ≤ (dependents root n).length && isCteKind n))

/-- `result.find(CTE)`: the `CTE` nodes of the final graph in
breadth-first discovery order. -/
def findCTEs (root : Node) : List Node :=
  (allNodesBFS root).filter isCteNode

/-- Is this node a relation? -/
def isRelationNode : Node → Bool
  | .table _ _ => true
  | .project _ _ => true
  | .filterRel _ _ => true
  | .sortRel _ _ => true
  | .select _ _ _ _ => true
  | .cte _ => true
  | .limit _ _ => true
  | .sample _ _ _ => true
  | .setOp _ _ _ => true
  | .aggregate _ _ => true
  | .joinChain _ => true
  | .view _ _ => true
  | _ => false

/--
`sqlize` (with no backend-specific pre-rewrites): check the root is a
relation, apply the core lowering rules bottom-up, squash nested
`Select` nodes with `merge_select_select`, wrap the extracted CTE
candidates, and return the result together with the unwrapped bodies of
its `CTE` nodes in reverse discovery order.
-/
def sqlize (params : List (String × Int)) (root : Node) :
    Except RErr (Node × List Node) :=
  if isRelationNode root then do
    let sqlized ← rewriteBUE (lowerStep params) root
    let simplified := rewriteBU merge_select_select sqlized
    let ctes := extract_ctes simplified
    let result := wrapAll ctes simplified
    .ok (result, ((findCTEs result).map cteParent).reverse)
  else .error .notRelation

theorem merge_select_select_pair (gp : Node) (isels : NamedList)
    (ipreds isorts : NodeList) (osels : NamedList) (opreds osorts : NodeList) :
    merge_select_select (.select (.select gp isels ipreds isorts) osels opreds osorts) =
      (if selectValsBlocked osels opreds osorts then
        Node.select (.select gp isels ipreds isorts) osels opreds osorts
      else if selectValsBlocked isels ipreds isorts then
        Node.select (.select gp isels ipreds isorts) osels opreds osorts
      else if complexity (mergeCandidate gp isels ipreds isorts osels opreds osorts) ≤
          complexity (.select (.select gp isels ipreds isorts) osels opreds osorts) then
        mergeCandidate gp isels ipreds isorts osels opreds osorts
      else Node.select (.select gp isels ipreds isorts) osels opreds osorts) := rfl

theorem complexityL_eq_sum : (l : NodeList) →
    complexityL l = (l.toList.map complexity).sum
  | .nil => rfl
  | .cons h t => by
      simp [complexityL, NodeList.toList, complexityL_eq_sum t]

theorem complexityP_eq_sum : (l : NamedList) →
    complexityP l = ((l.toList.map Prod.snd).map complexity).sum
  | .nil => rfl
  | .cons k v t => by
      simp [complexityP, NamedList.toList, complexityP_eq_sum t]

theorem complexityO_eq_sum (o : NodeOpt) :
    complexityO o = (o.toOption.toList.map complexity).sum := by
  cases o <;> simp [complexityO, NodeOpt.toOption]

/-- Every non-`Field` node scores `1` plus the sum of the scores of its
node-valued children; a `Field` scores `1`. -/
theorem complexity_children (n : Node) (h : isField n = false) :
    complexity n = 1 + ((childrenAll n).map complexity).sum := by
  cases n <;>
    simp_all [complexity, childrenAll, isField, complexityL_eq_sum,
      complexityP_eq_sum, complexityO_eq_sum]

theorem sizeOf_lt_of_mem_toList : (l : NodeList) → (x : Node) →
    x ∈ l.toList → sizeOf x < sizeOf l
  | .nil, x, h => by simp [NodeList.toList] at h
  | .cons hd tl, x, h => by
      rcases List.mem_cons.mp h with h1 | h2
      · subst h1; simp; omega
      · have := sizeOf_lt_of_mem_toList tl x h2
        simp; omega

theorem map_id_of_mem {f : Node → Node} : (l : List Node) →
    (∀ x ∈ l, f x = x) → l.map f = l
  | [], _ => rfl
  | x :: xs, h => by
      simp only [List.map_cons, h x (by simp)]
      simp [map_id_of_mem xs (fun y hy => h y (by simp [hy]))]

mutual

/-- The substitution of `merge_select_select` leaves any term strictly
smaller than the inner `Select` unchanged: a `Field` referencing the
inner `Select` cannot occur inside one of the inner `Select`'s own
parts, because it would contain the whole inner `Select` as a subterm. -/
theorem substVal_sizeLt (inner : Node) (sels : List (String × Node)) :
    (s : Node) → sizeOf s < sizeOf inner → substVal inner sels s = s
  | .table nm cs, _ => rfl
  | .field r k, h => by
      have hlt : sizeOf r < sizeOf (Node.field r k) := by simp; try omega
      have hr : ¬ (r = inner) := by intro he; subst he; omega
      simp [substVal, hr]
  | .lit v, _ => rfl
  | .vop nm args, h => by
      have h1 : sizeOf args < sizeOf (Node.vop nm args) := by simp; try omega
      simp [substVal, substValL_sizeLt inner sels args (Nat.lt_trans h1 h)]
  | .sortKey e a, h => by
      have h1 : sizeOf e < sizeOf (Node.sortKey e a) := by simp; try omega
      simp [substVal, substVal_sizeLt inner sels e (Nat.lt_trans h1 h)]
  | .window fn ob gb st en, h => by
      have h1 : sizeOf fn < sizeOf (Node.window fn ob gb st en) := by simp; try omega
      have h2 : sizeOf ob < sizeOf (Node.window fn ob gb st en) := by simp; try omega
      have h3 : sizeOf gb < sizeOf (Node.window fn ob gb st en) := by simp; try omega
      simp [substVal, substVal_sizeLt inner sels fn (Nat.lt_trans h1 h),
        substValL_sizeLt inner sels ob (Nat.lt_trans h2 h),
        substValL_sizeLt inner sels gb (Nat.lt_trans h3 h)]
  | .first a f?, h => by
      have h1 : sizeOf a < sizeOf (Node.first a f?) := by simp; try omega
      have h2 : sizeOf f? < sizeOf (Node.first a f?) := by simp; try omega
      simp [substVal, substVal_sizeLt inner sels a (Nat.lt_trans h1 h),
        substValO_sizeLt inner sels f? (Nat.lt_trans h2 h)]
  | .last a f?, h => by
      have h1 : sizeOf a < sizeOf (Node.last a f?) := by simp; try omega
      have h2 : sizeOf f? < sizeOf (Node.last a f?) := by simp; try omega
      simp [substVal, substVal_sizeLt inner sels a (Nat.lt_trans h1 h),
        substValO_sizeLt inner sels f? (Nat.lt_trans h2 h)]
  | .firstValue a, h => by
      have h1 : sizeOf a < sizeOf (Node.firstValue a) := by simp; try omega
      simp [substVal, substVal_sizeLt inner sels a (Nat.lt_trans h1 h)]
  | .lastValue a, h => by
      have h1 : sizeOf a < sizeOf (Node.lastValue a) := by simp; try omega
      simp [substVal, substVal_sizeLt inner sels a (Nat.lt_trans h1 h)]
  | .existsSubquery r, _ => rfl
  | .inSubquery n r, h => by
      have h1 : sizeOf n < sizeOf (Node.inSubquery n r) := by simp; try omega
      simp [substVal, substVal_sizeLt inner sels n (Nat.lt_trans h1 h)]
  | .unnest a, h => by
      have h1 : sizeOf a < sizeOf (Node.unnest a) := by simp; try omega
      simp [substVal, substVal_sizeLt inner sels a (Nat.lt_trans h1 h)]
  | .randomScalar, _ => rfl
  | .countStar r, _ => rfl
  | .countDistinctStar r, _ => rfl
  | .param nm, _ => rfl
  | .project p vs, _ => rfl
  | .filterRel p ps, _ => rfl
  | .sortRel p ks, _ => rfl
  | .select p sl pr ks, _ => rfl
  | .cte p, _ => rfl
  | .limit p n, _ => rfl
  | .sample p fr sd, _ => rfl
  | .setOp k l r, _ => rfl
  | .aggregate p ms, _ => rfl
  | .joinChain ts, _ => rfl
  | .view p nm, _ => rfl

/-- `substVal_sizeLt` over a `NodeList`. -/
theorem substValL_sizeLt (inner : Node) (sels : List (String × Node)) :
    (l : NodeList) → sizeOf l < sizeOf inner → substValL inner sels l = l
  | .nil, _ => rfl
  | .cons hd tl, h => by
      have h1 : sizeOf hd < sizeOf (NodeList.cons hd tl) := by simp; try omega
      have h2 : sizeOf tl < sizeOf (NodeList.cons hd tl) := by simp; try omega
      simp [substValL, substVal_sizeLt inner sels hd (Nat.lt_trans h1 h),
        substValL_sizeLt inner sels tl (Nat.lt_trans h2 h)]

/-- `substVal_sizeLt` over a `NodeOpt`. -/
theorem substValO_sizeLt (inner : Node) (sels : List (String × Node)) :
    (o : NodeOpt) → sizeOf o < sizeOf inner → substValO inner sels o = o
  | .none, _ => rfl
  | .some v, h => by
      have h1 : sizeOf v < sizeOf (NodeOpt.some v) := by simp; try omega
      simp [substValO, substVal_sizeLt inner sels v (Nat.lt_trans h1 h)]

end

/-- The inner `Select`'s own sort keys are unchanged by the merge
substitution. -/
theorem substVal_inner_sortKeys (gp : Node) (isels : NamedList)
    (ipreds isorts : NodeList) (sels : List (String × Node)) :
    isorts.toList.map (substVal (.select gp isels ipreds isorts) sels) =
      isorts.toList := by
  apply map_id_of_mem
  intro x hx
  apply substVal_sizeLt
  have h1 := sizeOf_lt_of_mem_toList isorts x hx
  have h2 : sizeOf isorts < sizeOf (Node.select gp isels ipreds isorts) := by
    simp; try omega
  omega

theorem wrapAllL_toList (ctes : List Node) : (l : NodeList) →
    (wrapAllL ctes l).toList = l.toList.map (wrapAll ctes)
  | .nil => rfl
  | .cons h t => by
      simp [wrapAllL, NodeList.toList, wrapAllL_toList ctes t]

theorem wrapAllP_toList (ctes : List Node) : (l : NamedList) →
    (wrapAllP ctes l).toList =
      l.toList.map (fun kv => (kv.1, wrapAll ctes kv.2))
  | .nil => rfl
  | .cons k v t => by
      simp [wrapAllP, NamedList.toList, wrapAllP_toList ctes t]

theorem wrapAllO_optToList (ctes : List Node) : (o : NodeOpt) →
    (wrapAllO ctes o).toOption.toList = o.toOption.toList.map (wrapAll ctes)
  | .none => rfl
  | .some _ => rfl

/-- An unwrapped node keeps its head constructor and has exactly the
rewritten children of the original. -/
theorem wrapAll_not_mem (ctes : List Node) (n : Node) (h : n ∉ ctes) :
    isCteNode (wrapAll ctes n) = isCteNode n ∧
    childrenAll (wrapAll ctes n) = (childrenAll n).map (wrapAll ctes) := by
  cases n <;>
    simp [wrapAll, wrapIf, h, isCteNode, childrenAll, wrapAllL_toList,
      wrapAllP_toList, wrapAllO_optToList, List.map_map, Function.comp]

/-- A qualifying node receives exactly one `CTE` wrapper: the result is
a `CTE` whose body keeps the original head constructor and carries the
rewritten children of the original. -/
theorem wrapAll_mem (ctes : List Node) (n : Node) (h : n ∈ ctes) :
    wrapAll ctes n = .cte (cteParent (wrapAll ctes n)) ∧
    isCteNode (cteParent (wrapAll ctes n)) = isCteNode n ∧
    childrenAll (cteParent (wrapAll ctes n)) =
      (childrenAll n).map (wrapAll ctes) := by
  cases n <;>
    simp [wrapAll, wrapIf, h, cteParent, isCteNode, childrenAll,
      wrapAllL_toList, wrapAllP_toList, wrapAllO_optToList,
      List.map_map, Function.comp]

mutual

/-- With no CTE candidates the wrapping pass is the identity. -/
theorem wrapAll_nil : (n : Node) → wrapAll [] n = n
  | .table nm cs => by simp [wrapAll, wrapIf]
  | .field r k => by simp [wrapAll, wrapIf, wrapAll_nil r]
  | .lit v => by simp [wrapAll, wrapIf]
  | .vop nm args => by simp [wrapAll, wrapIf, wrapAllL_nil args]
  | .sortKey e a => by simp [wrapAll, wrapIf, wrapAll_nil e]
  | .window fn ob gb st en => by
      simp [wrapAll, wrapIf, wrapAll_nil fn, wrapAllL_nil ob, wrapAllL_nil gb]
  | .first a f? => by simp [wrapAll, wrapIf, wrapAll_nil a, wrapAllO_nil f?]
  | .last a f? => by simp [wrapAll, wrapIf, wrapAll_nil a, wrapAllO_nil f?]
  | .firstValue a => by simp [wrapAll, wrapIf, wrapAll_nil a]
  | .lastValue a => by simp [wrapAll, wrapIf, wrapAll_nil a]
  | .existsSubquery r => by simp [wrapAll, wrapIf, wrapAll_nil r]
  | .inSubquery n r => by simp [wrapAll, wrapIf, wrapAll_nil n, wrapAll_nil r]
  | .unnest a => by simp [wrapAll, wrapIf, wrapAll_nil a]
  | .randomScalar => by simp [wrapAll, wrapIf]
  | .countStar r => by simp [wrapAll, wrapIf, wrapAll_nil r]
  | .countDistinctStar r => by simp [wrapAll, wrapIf, wrapAll_nil r]
  | .param nm => by simp [wrapAll, wrapIf]
  | .project p vs => by simp [wrapAll, wrapIf, wrapAll_nil p, wrapAllP_nil vs]
  | .filterRel p ps => by simp [wrapAll, wrapIf, wrapAll_nil p, wrapAllL_nil ps]
  | .sortRel p ks => by simp [wrapAll, wrapIf, wrapAll_nil p, wrapAllL_nil ks]
  | .select p sels preds keys => by
      simp [wrapAll, wrapIf, wrapAll_nil p, wrapAllP_nil sels,
        wrapAllL_nil preds, wrapAllL_nil keys]
  | .cte p => by simp [wrapAll, wrapIf, wrapAll_nil p]
  | .limit p n => by simp [wrapAll, wrapIf, wrapAll_nil p]
  | .sample p fr sd => by simp [wrapAll, wrapIf, wrapAll_nil p]
  | .setOp k l r => by simp [wrapAll, wrapIf, wrapAll_nil l, wrapAll_nil r]
  | .aggregate p ms => by simp [wrapAll, wrapIf, wrapAll_nil p, wrapAllP_nil ms]
  | .joinChain ts => by simp [wrapAll, wrapIf, wrapAllL_nil ts]
  | .view p nm => by simp [wrapAll, wrapIf, wrapAll_nil p]

/-- `wrapAll_nil` over a `NodeList`. -/
theorem wrapAllL_nil : (l : NodeList) → wrapAllL [] l = l
  | .nil => rfl
  | .cons h t => by simp [wrapAllL, wrapAll_nil h, wrapAllL_nil t]

/-- `wrapAll_nil` over a `NamedList`. -/
theorem wrapAllP_nil : (l : NamedList) → wrapAllP [] l = l
  | .nil => rfl
  | .cons k v t => by simp [wrapAllP, wrapAll_nil v, wrapAllP_nil t]

/-- `wrapAll_nil` over a `NodeOpt`. -/
theorem wrapAllO_nil : (o : NodeOpt) → wrapAllO [] o = o
  | .none => rfl
  | .some v => by simp [wrapAllO, wrapAll_nil v]

end

deriving instance DecidableEq for Except

/-! Concrete example terms used to exercise the definitions. -/

/-- A base table with a single column `x`. -/
def tbl : Node := .table "t" ["x"]

/-- The column `x` of `tbl`. -/
def colX : Node := .field tbl "x"

/-- `x + x + x`. -/
def tripleX : Node :=
  .vop "add" (.cons (.vop "add" (.cons colX (.cons colX .nil))) (.cons colX .nil))

/-- `Select(tbl, {a: x + x + x})`. -/
def chainInner : Node := .select tbl (.cons "a" tripleX .nil) .nil .nil

/-- The column `a` of `chainInner`. -/
def colA : Node := .field chainInner "a"

/-- `a + a + a`. -/
def tripleA : Node :=
  .vop "add" (.cons (.vop "add" (.cons colA (.cons colA .nil))) (.cons colA .nil))

/-- `Select(chainInner, {b: a + a + a})`. -/
def chainMid : Node := .select chainInner (.cons "b" tripleA .nil) .nil .nil

/-- `Select(chainMid, {c: 5})`: a three-deep `Select` chain. -/
def chainRoot : Node := .select chainMid (.cons "c" (.lit 5) .nil) .nil .nil

/-- The result of lowering `chainRoot` once: the inner pair was kept
(merging it would treble `x + x + x`), the outer pair was merged. -/
def chainOnce : Node := .select chainInner (.cons "c" (.lit 5) .nil) .nil .nil

/-- The result of lowering `chainOnce`: the remaining pair now merges. -/
def chainTwice : Node := .select tbl (.cons "c" (.lit 5) .nil) .nil .nil

/-- `Limit(tbl, 4)`. -/
def limA : Node := .limit tbl 4

/-- `Limit(limA, 3)`: references `limA`. -/
def limB : Node := .limit limA 3

/-- A union of two limits over `limB`. -/
def unionMid : Node := .setOp "union" (.limit limB 1) (.limit limB 2)

/-- A root union referencing `limA` directly and `limB` through
`unionMid`: both `limA` and `limB` gain two distinct dependents. -/
def unionRoot : Node := .setOp "union" limA unionMid

/-- The lowered body of the `limB` CTE: its parent reference is the
wrapped `limA`. -/
def limBWrapped : Node := .limit (.cte limA) 3

/-- The lowered form of `unionRoot` with both CTE wrappers in place. -/
def unionResult : Node :=
  .setOp "union" (.cte limA)
    (.setOp "union" (.limit (.cte limBWrapped) 1) (.limit (.cte limBWrapped) 2))

/-- `Select(tbl, {a: x + 1})`. -/
def wInner : Node :=
  .select tbl (.cons "a" (.vop "add" (.cons colX (.cons (.lit 1) .nil))) .nil) .nil .nil

/-- Outer selections `{b: a * 2}` over `wInner`. -/
def wOuterSels : NamedList :=
  .cons "b" (.vop "mul" (.cons (.field wInner "a") (.cons (.lit 2) .nil))) .nil

/-- The merge of the double projection: `Select(tbl, {b: (x + 1) * 2})`. -/
def wMerged : Node :=
  .select tbl
    (.cons "b" (.vop "mul" (.cons (.vop "add" (.cons colX (.cons (.lit 1) .nil)))
      (.cons (.lit 2) .nil))) .nil) .nil .nil

/-- `Select(tbl, {a: WindowFunction(sum(x))})`: a blocking inner Select. -/
def winInner : Node :=
  .select tbl
    (.cons "a" (.window (.vop "sum" (.cons colX .nil)) .nil .nil
      Option.none Option.none) .nil) .nil .nil

/-- Outer selections `{b: a}` over the blocking `winInner`. -/
def winOuterSels : NamedList := .cons "b" (.field winInner "a") .nil

/-- `Select(tbl, {a: x}, sort_keys=[x asc])`. -/
def srtInner : Node :=
  .select tbl (.cons "a" colX .nil) .nil (.cons (.sortKey colX true) .nil)

/-- Outer sort keys `[a asc]` over `srtInner`. -/
def srtOuterKeys : NodeList := .cons (.sortKey (.field srtInner "a") true) .nil

/-- Outer selections `{b: a}` over `srtInner`. -/
def srtOuterSels : NamedList := .cons "b" (.field srtInner "a") .nil

/-! The claims. -/

/--
Claim C1: for a nested `Select` pair that passes the blocking safety
check and the complexity guard, the merge produces a single `Select`
whose parent is the inner parent, whose selections are the outer
selections with every `Field(inner, name)` replaced by the inner
selection bound to that name, and whose predicates are the inner
predicates followed by the substituted outer predicates, de-duplicated
by structural equality keeping the first occurrence.
-/
theorem merge_select_select_merged_fields (gp : Node) (isels : NamedList)
    (ipreds isorts : NodeList) (osels : NamedList) (opreds osorts : NodeList)
    (hOuter : selectValsBlocked osels opreds osorts = false)
    (hInner : selectValsBlocked isels ipreds isorts = false)
    (hGuard : complexity (mergeCandidate gp isels ipreds isorts osels opreds osorts) ≤
      complexity (.select (.select gp isels ipreds isorts) osels opreds osorts)) :
    merge_select_select (.select (.select gp isels ipreds isorts) osels opreds osorts) =
      .select gp
        (NamedList.ofList (osels.toList.map (fun kv =>
          (kv.1, substVal (.select gp isels ipreds isorts) isels.toList kv.2))))
        (NodeList.ofList (uniqueFirst (ipreds.toList ++
          opreds.toList.map (substVal (.select gp isels ipreds isorts) isels.toList))))
        (NodeList.ofList
          (osorts.toList.map (substVal (.select gp isels ipreds isorts) isels.toList) ++
           isorts.toList.filter (fun k => sortExprOf k ∉
             (osorts.toList.map
               (substVal (.select gp isels ipreds isorts) isels.toList)).map
                 sortExprOf))) := by
  rw [merge_select_select_pair]
  simp only [hOuter, hInner, Bool.false_eq_true, if_false]
  rw [if_pos hGuard]
  rfl

/-- Claim C1, witnessed on the double projection
`Select(Select(tbl, {a: x + 1}), {b: a * 2})`. -/
theorem merge_select_select_merged_fields_witness :
    merge_select_select (.select wInner wOuterSels .nil .nil) = wMerged :=
  (merge_select_select_merged_fields tbl
      (.cons "a" (.vop "add" (.cons colX (.cons (.lit 1) .nil))) .nil) .nil .nil
      wOuterSels .nil .nil (by decide) (by decide) (by decide)).trans (by decide)

/--
Claim C2: when the blocking check passes, the merge engine returns the
merged node if and only if its complexity score is at most the score of
the original unmerged node (ties prefer merging), otherwise the
original node unchanged; the complexity score assigns `1` to every
`Field` node without recursing into the referenced relation, and `1`
plus the sum of the children's scores to every other node.
-/
theorem merge_select_select_guard (gp : Node) (isels : NamedList)
    (ipreds isorts : NodeList) (osels : NamedList) (opreds osorts : NodeList)
    (hOuter : selectValsBlocked osels opreds osorts = false)
    (hInner : selectValsBlocked isels ipreds isorts = false) :
    (merge_select_select (.select (.select gp isels ipreds isorts) osels opreds osorts) =
      if complexity (mergeCandidate gp isels ipreds isorts osels opreds osorts) ≤
          complexity (.select (.select gp isels ipreds isorts) osels opreds osorts)
      then mergeCandidate gp isels ipreds isorts osels opreds osorts
      else .select (.select gp isels ipreds isorts) osels opreds osorts) ∧
    (∀ (r : Node) (nm : String), complexity (.field r nm) = 1) ∧
    (∀ m : Node, isField m = false →
      complexity m = 1 + ((childrenAll m).map complexity).sum) := by
  refine ⟨?_, fun _ _ => rfl, complexity_children⟩
  rw [merge_select_select_pair]
  simp only [hOuter, hInner, Bool.false_eq_true, if_false]

/-- Claim C2, witnessed on the double projection. -/
theorem merge_select_select_guard_witness :
    merge_select_select (.select wInner wOuterSels .nil .nil) =
      if complexity (mergeCandidate tbl
          (.cons "a" (.vop "add" (.cons colX (.cons (.lit 1) .nil))) .nil) .nil .nil
          wOuterSels .nil .nil) ≤
        complexity (.select wInner wOuterSels .nil .nil)
      then mergeCandidate tbl
          (.cons "a" (.vop "add" (.cons colX (.cons (.lit 1) .nil))) .nil) .nil .nil
          wOuterSels .nil .nil
      else .select wInner wOuterSels .nil .nil :=
  (merge_select_select_guard tbl
      (.cons "a" (.vop "add" (.cons colX (.cons (.lit 1) .nil))) .nil) .nil .nil
      wOuterSels .nil .nil (by decide) (by decide)).1

/--
Claim C3: the merge is vetoed and the outer node returned unchanged
whenever the value subtrees of either the outer or the inner `Select`
contain a window function, an EXISTS-subquery, an IN-subquery, an
unnest, or an impure value.
-/
theorem merge_select_select_vetoed (gp : Node) (isels : NamedList)
    (ipreds isorts : NodeList) (osels : NamedList) (opreds osorts : NodeList)
    (h : selectValsBlocked osels opreds osorts = true ∨
         selectValsBlocked isels ipreds isorts = true) :
    merge_select_select (.select (.select gp isels ipreds isorts) osels opreds osorts) =
      .select (.select gp isels ipreds isorts) osels opreds osorts := by
  rw [merge_select_select_pair]
  rcases h with h | h
  · simp [h]
  · by_cases houter : selectValsBlocked osels opreds osorts <;> simp [houter, h]

/-- Claim C3, witnessed on
`Select(Select(tbl, {a: WindowFunction(sum(x))}), {b: a})`: the output
retains the two nested `Select` nodes. -/
theorem merge_select_select_vetoed_witness :
    merge_select_select (.select winInner winOuterSels .nil .nil) =
      .select winInner winOuterSels .nil .nil :=
  merge_select_select_vetoed tbl
    (.cons "a" (.window (.vop "sum" (.cons colX .nil)) .nil .nil
      Option.none Option.none) .nil) .nil .nil
    winOuterSels .nil .nil (Or.inr (by decide))

/--
Claim C4: in a successful merge the resulting sort keys are the outer
sort keys after substitution, followed by the inner sort keys after
substitution excluding every inner key whose expression already appears
among the substituted outer keys' expressions.  (The substitution fixes
the inner keys, which can never mention a `Field` of the inner `Select`
itself.)
-/
theorem merge_select_select_sort_keys (gp : Node) (isels : NamedList)
    (ipreds isorts : NodeList) (osels : NamedList) (opreds osorts : NodeList)
    (hOuter : selectValsBlocked osels opreds osorts = false)
    (hInner : selectValsBlocked isels ipreds isorts = false)
    (hGuard : complexity (mergeCandidate gp isels ipreds isorts osels opreds osorts) ≤
      complexity (.select (.select gp isels ipreds isorts) osels opreds osorts)) :
    ∃ sels2 preds2,
      merge_select_select (.select (.select gp isels ipreds isorts) osels opreds osorts) =
        .select gp sels2 preds2
          (NodeList.ofList
            (osorts.toList.map (substVal (.select gp isels ipreds isorts) isels.toList) ++
             (isorts.toList.map
                 (substVal (.select gp isels ipreds isorts) isels.toList)).filter
               (fun k => sortExprOf k ∉
                 (osorts.toList.map
                   (substVal (.select gp isels ipreds isorts) isels.toList)).map
                     sortExprOf))) := by
  refine ⟨NamedList.ofList (osels.toList.map (fun kv =>
      (kv.1, substVal (.select gp isels ipreds isorts) isels.toList kv.2))),
    NodeList.ofList (uniqueFirst (ipreds.toList ++
      opreds.toList.map (substVal (.select gp isels ipreds isorts) isels.toList))),
    ?_⟩
  rw [merge_select_select_pair]
  simp only [hOuter, hInner, Bool.false_eq_true, if_false]
  rw [if_pos hGuard]
  rw [substVal_inner_sortKeys]
  rfl

/-- Claim C4, witnessed on a pair whose inner sort key is superseded by
the substituted outer key on the same expression. -/
theorem merge_select_select_sort_keys_witness :
    ∃ sels2 preds2,
      merge_select_select (.select srtInner srtOuterSels .nil srtOuterKeys) =
        .select tbl sels2 preds2 (.cons (.sortKey colX true) .nil) := by
  obtain ⟨sels2, preds2, h⟩ :=
    merge_select_select_sort_keys tbl (.cons "a" colX .nil) .nil
      (.cons (.sortKey colX true) .nil) srtOuterSels .nil srtOuterKeys
      (by decide) (by decide) (by decide)
  refine ⟨sels2, preds2, ?_⟩
  simp only [srtInner]
  rw [h]
  congr 1

/--
Claim C7: lowering a `WindowFunction` whose function is `First` or
`Last` raises `UnsupportedOperation` when the function's `where` filter
is non-null, and otherwise replaces the function with
`FirstValue(arg)`/`LastValue(arg)`.
-/
theorem first_to_firstvalue_cases :
    (∀ (a w : Node) (ob gb : NodeList) (s e : Option Int),
      first_to_firstvalue (.window (.first a (.some w)) ob gb s e) =
        .error .unsupported) ∧
    (∀ (a : Node) (ob gb : NodeList) (s e : Option Int),
      first_to_firstvalue (.window (.first a .none) ob gb s e) =
        .ok (.window (.firstValue a) ob gb s e)) ∧
    (∀ (a w : Node) (ob gb : NodeList) (s e : Option Int),
      first_to_firstvalue (.window (.last a (.some w)) ob gb s e) =
        .error .unsupported) ∧
    (∀ (a : Node) (ob gb : NodeList) (s e : Option Int),
      first_to_firstvalue (.window (.last a .none) ob gb s e) =
        .ok (.window (.lastValue a) ob gb s e)) :=
  ⟨fun _ _ _ _ _ _ => rfl, fun _ _ _ _ _ => rfl,
   fun _ _ _ _ _ _ => rfl, fun _ _ _ _ _ => rfl⟩

/--
Claim C8: the sample-as-filter rule raises `UnsupportedOperation` when
the `Sample` node's seed is non-null, and otherwise rewrites
`Sample(parent, fraction, null)` into
`Filter(parent, RandomScalar() <= fraction)`.
-/
theorem rewrite_sample_as_filter_cases :
    (∀ (p : Node) (fr sd : Int),
      rewrite_sample_as_filter (.sample p fr (Option.some sd)) =
        .error .unsupported) ∧
    (∀ (p : Node) (fr : Int),
      rewrite_sample_as_filter (.sample p fr Option.none) =
        .ok (.filterRel p (.cons (.vop "lessEqual"
          (.cons .randomScalar (.cons (.lit fr) .nil))) .nil))) :=
  ⟨fun _ _ _ => rfl, fun _ _ => rfl⟩

/--
Claim C10: when the first/last lowering rule succeeds, only the window
function's `func` field is replaced; the ordering keys, grouping keys
and frame bounds of the `WindowFunction` are unchanged.
-/
theorem first_to_firstvalue_preserves_frame (w : Node) (ob gb : NodeList)
    (s e : Option Int) (res : Node)
    (h : first_to_firstvalue (.window w ob gb s e) = .ok res) :
    ∃ fn, res = .window fn ob gb s e := by
  cases w <;> try (simp [first_to_firstvalue] at h; exact ⟨_, h.symm⟩)
  case first a f? =>
    cases f? with
    | none => simp [first_to_firstvalue] at h; exact ⟨_, h.symm⟩
    | some w2 => simp [first_to_firstvalue] at h
  case last a f? =>
    cases f? with
    | none => simp [first_to_firstvalue] at h; exact ⟨_, h.symm⟩
    | some w2 => simp [first_to_firstvalue] at h

/-- Claim C10, witnessed on a windowed `first(x)` with an order-by key
and frame bounds. -/
theorem first_to_firstvalue_preserves_frame_witness :
    ∃ fn, Node.window (.firstValue colX) (.cons (.sortKey colX true) .nil) .nil
        Option.none (Option.some 0) =
      .window fn (.cons (.sortKey colX true) .nil) .nil Option.none (Option.some 0) :=
  first_to_firstvalue_preserves_frame (.first colX .none)
    (.cons (.sortKey colX true) .nil) .nil Option.none (Option.some 0)
    (.window (.firstValue colX) (.cons (.sortKey colX true) .nil) .nil
      Option.none (Option.some 0)) (by decide)

/--
Claim C5: a node of the graph is wrapped in a `CTE` iff it is an
explicitly-tagged materialized-view node, or it is of a CTE-eligible
kind and has two or more distinct referencing nodes in the dependency
graph built excluding `Field`/`CountStar`/`CountDistinctStar`; a
qualifying node receives exactly one `CTE` wrapper, whose body keeps
the node's own head and whose children are the rewritten originals, so
every reference site resolves to the same wrapped instance.
-/
theorem extract_wrap_spec (root n : Node)
    (hNoCte : ∀ m ∈ graphNodes root, isCteNode m = false)
    (hn : n ∈ graphNodes root) :
    (n ∈ extract_ctes root ↔
      (isView n = true ∨ (isCteKind n = true ∧ 2 ≤ (dependents root n).length)))
    ∧ (isCteNode (wrapAll (extract_ctes root) n) = true ↔ n ∈ extract_ctes root)
    ∧ (n ∈ extract_ctes root →
        wrapAll (extract_ctes root) n =
          .cte (cteParent (wrapAll (extract_ctes root) n)) ∧
        isCteNode (cteParent (wrapAll (extract_ctes root) n)) = false ∧
        childrenAll (cteParent (wrapAll (extract_ctes root) n)) =
          (childrenAll n).map (wrapAll (extract_ctes root)))
    ∧ (n ∉ extract_ctes root →
        isCteNode (wrapAll (extract_ctes root) n) = false ∧
        childrenAll (wrapAll (extract_ctes root) n) =
          (childrenAll n).map (wrapAll (extract_ctes root))) := by
  have hcn : isCteNode n = false := hNoCte n hn
  refine ⟨?_, ⟨?_, ?_⟩, ?_, ?_⟩
  · simp only [extract_ctes, List.mem_filter, hn, true_and, Bool.or_eq_true,
      Bool.and_eq_true, decide_eq_true_eq]
    tauto
  · intro hw
    by_contra hmem
    have h2 := (wrapAll_not_mem _ n hmem).1
    rw [hcn] at h2
    rw [h2] at hw
    exact absurd hw (by simp)
  · intro hmem
    rw [(wrapAll_mem _ n hmem).1]
    rfl
  · intro hmem
    exact ⟨(wrapAll_mem _ n hmem).1,
      by rw [(wrapAll_mem _ n hmem).2.1, hcn],
      (wrapAll_mem _ n hmem).2.2⟩
  · intro hmem
    exact ⟨by rw [(wrapAll_not_mem _ n hmem).1, hcn],
      (wrapAll_not_mem _ n hmem).2⟩

/-- Claim C5, witnessed on `unionRoot` at the doubly-referenced
`limA`. -/
theorem extract_wrap_spec_witness :
    limA ∈ extract_ctes unionRoot ↔
      (isView limA = true ∨
        (isCteKind limA = true ∧ 2 ≤ (dependents unionRoot limA).length)) :=
  (extract_wrap_spec unionRoot limA (by decide) (by decide)).1

/--
Claim C6, counterexample: the CTE list returned by `sqlize` on
`unionRoot` is `[limBWrapped, limA]`, yet the body `limBWrapped` of the
first CTE references the CTE whose body is `limA` — the dependency
appears after its dependent, so the returned sequence is not
dependency-first.
-/
theorem sqlize_cte_order_counterexample :
    sqlize [] unionRoot = .ok (unionResult, [limBWrapped, limA]) ∧
    Node.cte limA ∈ childrenAll limBWrapped ∧
    limBWrapped ≠ limA :=
  ⟨by decide, by decide, by decide⟩

/--
Claim C6, amended: the CTE list returned by the lowering entry point is
the reverse of the breadth-first discovery order of the `CTE` nodes of
the final graph; this is dependency-first when every CTE's dependents
are discovered before it (as in a chain of nested relations), but not
in general.
-/
theorem sqlize_cte_list_rev_discovery (params : List (String × Int))
    (root r : Node) (l : List Node)
    (h : sqlize params root = .ok (r, l)) :
    l = ((findCTEs r).map cteParent).reverse := by
  unfold sqlize at h
  by_cases hrel : isRelationNode root
  · rw [if_pos hrel] at h
    cases hE : rewriteBUE (lowerStep params) root with
    | error e =>
        rw [hE] at h
        exact absurd h (by simp [Bind.bind, Except.bind])
    | ok s =>
        rw [hE] at h
        simp only [Bind.bind, Except.bind, Except.ok.injEq, Prod.mk.injEq] at h
        rw [← h.2, ← h.1]
  · rw [if_neg hrel] at h
    exact absurd h (by simp)

/-- Claim C6 (amended), witnessed on `unionRoot`. -/
theorem sqlize_cte_list_rev_discovery_witness :
    [limBWrapped, limA] = ((findCTEs unionResult).map cteParent).reverse :=
  sqlize_cte_list_rev_discovery [] unionRoot unionResult [limBWrapped, limA]
    (by decide)

/--
Claim C9, counterexample: lowering is not idempotent.  `chainOnce` is
itself the output of the full pipeline on `chainRoot` (fully merged and
CTE-wrapped as far as the first pass goes), yet lowering it again
merges the `Select` pair that the first pass created without
re-examining, producing a structurally different graph.
-/
theorem sqlize_not_idempotent :
    sqlize [] chainRoot = .ok (chainOnce, []) ∧
    sqlize [] chainOnce = .ok (chainTwice, []) ∧
    chainTwice ≠ chainOnce :=
  ⟨by decide, by decide, by decide⟩

/--
Claim C9, amended: a second lowering can change the graph (a `Select`
pair produced by a pass's own merge is not re-examined within that
pass); but on a graph that every pipeline stage fixes — the lowering
rules find nothing to rewrite, the merge pass returns it unchanged and
no CTE candidate is found — `sqlize` returns the identical graph
together with the CTE list recomputed from its existing `CTE` nodes.
-/
theorem sqlize_fixed_of_stable (g : Node)
    (hrel : isRelationNode g = true)
    (h1 : rewriteBUE (lowerStep []) g = .ok g)
    (h2 : rewriteBU merge_select_select g = g)
    (h3 : extract_ctes g = []) :
    sqlize [] g = .ok (g, ((findCTEs g).map cteParent).reverse) := by
  unfold sqlize
  rw [if_pos (by rw [hrel])]
  show (rewriteBUE (lowerStep []) g).bind _ = _
  rw [h1]
  show Except.ok _ = _
  rw [h2, h3, wrapAll_nil]

/-- Claim C9 (amended), witnessed on the stable lowered graph
`unionResult`. -/
theorem sqlize_fixed_of_stable_witness :
    sqlize [] unionResult =
      .ok (unionResult, ((findCTEs unionResult).map cteParent).reverse) :=
  sqlize_fixed_of_stable unionResult (by decide) (by decide) (by decide) (by decide)

end IbisRewrites
